import Mathlib

/-!
Verification of the `@stater/repeat` repeater against its specification.

The source is a single TypeScript class `Repeater` (src/src/index.ts) holding a
user action, an optional delay (`_timeout`), a private call counter
(`_repeated`), a stop flag (`_stopped`) and public bookkeeping fields
(`status`, `startDate`, `endDate`, `runTime`).  We embed it shallowly:

* Mutable fields become the record `RState`; JS `undefined` becomes `none`.
  `_timeout` is `Option Int`: `none` stands for both `undefined` and `NaN`
  (the two are indistinguishable in the source: the field is private and is
  only ever used in the truthiness test `if (this._timeout)` and as the sleep
  duration, and both values are falsy there).
* Each driver run is a fuel-indexed recursive function mirroring the source's
  recursive `run` closures.  `RunResult.diverged` means the fuel ran out
  before the recursion did, i.e. the source recursion has not terminated
  within that many calls.
* The user action is abstracted by `fails : Nat → Bool` giving, for each
  1-based call index, whether that invocation throws/rejects.  The predicate
  passed to `until` is abstracted by `Nat → Bool` on the same index (in the
  source it is a thunk reading external state mutated by the action; the call
  index determines that history).
* Runs additionally produce a trace of `Event`s (sleep begin/end, action
  begin/end, status writes, the external `stop()` call) so that ordering
  claims ("the delay still elapses", "no further invocations") are statements
  about traces.
* `infinite()` runs its loop in the background; the external `stop()` can
  interleave at any `await` point.  `infLoop` therefore numbers the awaits it
  performs and takes `stopAt : Option Nat`, the index of the await during
  which `stop()` is called; `doAwait` applies the effects `stop()` performs
  synchronously in the source (`_stopped = true` and `_complete()`'s field
  writes).
* Wall-clock readings (`new Date()`) are parameters `t0`, `t1` (milliseconds).
-/

namespace StaterRepeat

/-- `status` field: `'idle' | 'running' | 'complete'`. -/
inductive Status
  | idle
  | running
  | complete
deriving DecidableEq, Repr

/-- The mutable fields of a `Repeater` instance.  `repeated`, `timeout` and
`stopped` model the private `_repeated`, `_timeout`, `_stopped`. -/
structure RState where
  status : Status
  startDate : Option Nat
  endDate : Option Nat
  runTime : Option Int
  repeated : Nat
  timeout : Option Int
  stopped : Bool
deriving DecidableEq, Repr

/-- State of a freshly constructed `Repeater` (`new Repeater(action)`). -/
def initState : RState :=
  { status := .idle, startDate := none, endDate := none, runTime := none,
    repeated := 0, timeout := none, stopped := false }

/-- Observable events of a run, in program order.  `sleepStart`/`sleepEnd`
bracket one `await sleep(t)`; `actStart i` is the action being invoked with
index `i` and `actEnd` its normal completion (absent when it throws);
`stopCall` marks the external `stop()` call; `setStatus` is a write to the
public `status` field; `driverStart` marks entry into `repeat`/`until`/
`infinite`. -/
inductive Event
  | sleepStart (ms : Int)
  | sleepEnd
  | actStart (idx : Nat)
  | actEnd
  | stopCall
  | setStatus (s : Status)
  | driverStart
deriving DecidableEq, Repr

/-- Outcome of a fuel-indexed driver run: the recursion finished normally,
the action threw, or the fuel was exhausted (the source recursion has not
terminated within that many calls). -/
inductive RunResult
  | completed
  | errored
  | diverged
deriving DecidableEq, Repr

/-- JS truthiness of the `_timeout` field, as used in `if (this._timeout)`:
`undefined`/`NaN` (`none`) and `0` are falsy. -/
def timeoutTruthy : Option Int → Bool
  | none => false
  | some t => t != 0

/-- Events of the conditional `await sleep(this._timeout)` in `_doAction`. -/
def sleepEvs (tm : Option Int) : List Event :=
  if timeoutTruthy tm then [.sleepStart (tm.getD 0), .sleepEnd] else []

/-- Events of one successful `_doAction` with resulting call index `i`:
optional sleep, then the action invoked with `i` and completing. -/
def stepEvs (tm : Option Int) (i : Nat) : List Event :=
  sleepEvs tm ++ [.actStart i, .actEnd]

/-- The sequence of call indices the action was invoked with, read off a
trace. -/
def actStartIdxs (evs : List Event) : List Nat :=
  evs.filterMap fun e =>
    match e with
    | .actStart i => some i
    | _ => none

/-- Argument to `every`: the source accepts `string | number`.  Strings are
modelled as their character lists. -/
inductive EveryArg
  | str (s : List Char)
  | num (n : Int)

/-- Decimal value of a digit string (the value `parseInt` returns for the
digits it consumed). -/
def digitsToNat (ds : List Char) : Nat :=
  ds.foldl (fun acc c => acc * 10 + (c.toNat - 48)) 0

/-- The digit-consuming core of JS `parseInt`: take the leading decimal
digits; `none` (`NaN`) when there are none. -/
def parseDigits (cs : List Char) : Option Nat :=
  let ds := cs.takeWhile Char.isDigit
  if ds.isEmpty then none else some (digitsToNat ds)

/-- JS `parseInt(s)` (radix 10, no leading whitespace modelled): an optional
sign followed by leading digits; `none` stands for `NaN`. -/
def parseIntJS (cs : List Char) : Option Int :=
  match cs with
  | [] => none
  | c :: rest =>
    if c = '-' then (parseDigits rest).map (fun n => -(n : Int))
    else if c = '+' then (parseDigits rest).map (fun n => (n : Int))
    else (parseDigits (c :: rest)).map (fun n => (n : Int))

/-- JS `String.prototype.endsWith`. -/
def endsWith (l suffix : List Char) : Bool :=
  suffix.isSuffixOf l

/-- `Repeater.every(ms: string | number)`.  String branch: `'ms'` suffix
stores `parseInt` of the string, `'s'` multiplies by 1000, `'m'` by 60000;
any other string leaves the field unchanged.  Number branch stores the number
as is.  (`Option.map` propagates `NaN`: `NaN * 1000` is `NaN`.) -/
def every (arg : EveryArg) (st : RState) : RState :=
  match arg with
  | .str s =>
    if endsWith s ['m', 's'] then { st with timeout := parseIntJS s }
    else if endsWith s ['s'] then { st with timeout := (parseIntJS s).map (· * 1000) }
    else if endsWith s ['m'] then { st with timeout := (parseIntJS s).map (· * 1000 * 60) }
    else st
  | .num n => { st with timeout := some n }

/-- `Repeater._complete()` at wall-clock time `now`: resets the call counter,
sets status, endDate, then runTime.  When `startDate` was never assigned
(`undefined`), `this.startDate.getTime()` throws a `TypeError`; the returned
`Bool` records that throw, which happens after the first three writes. -/
def completeRun (now : Nat) (st : RState) : RState × List Event × Bool :=
  let st1 := { st with repeated := 0, status := .complete, endDate := some now }
  match st.startDate with
  | some t0 => ({ st1 with runTime := some ((now : Int) - (t0 : Int)) }, [.setStatus .complete], false)
  | none => (st1, [.setStatus .complete], true)

/-- The recursive `run` closure of `Repeater.repeat(count)`: one `_doAction`
(increment counter, optional sleep, invoke action; a throw aborts), then
`count -= 1; if (count) await run()` — the recursion continues while the
decremented count is nonzero (truthy). -/
def repeatLoop (fails : Nat → Bool) (tm : Option Int) :
    Nat → Nat → Int → Nat × List Event × RunResult
  | 0, r, _ => (r, [], .diverged)
  | fuel + 1, r, count =>
    let i := r + 1
    if fails i then (i, sleepEvs tm ++ [.actStart i], .errored)
    else if count - 1 = 0 then (i, stepEvs tm i, .completed)
    else
      let out := repeatLoop fails tm fuel i (count - 1)
      (out.1, stepEvs tm i ++ out.2.1, out.2.2)

/-- `Repeater.repeat(count)`: set status running, record the start time, run
the loop, and on natural termination perform `_complete` (at time `t1`).
A throw in the action propagates out (`errored`) without completion
bookkeeping; `diverged` means the recursion outran the fuel. -/
def repeatDriver (fails : Nat → Bool) (t0 t1 : Nat) (fuel : Nat) (count : Int)
    (st : RState) : RState × List Event × RunResult :=
  let st1 := { st with status := .running, startDate := some t0 }
  let out := repeatLoop fails st1.timeout fuel st1.repeated count
  let st2 := { st1 with repeated := out.1 }
  match out.2.2 with
  | .completed =>
    let c := completeRun t1 st2
    (c.1, [.driverStart, .setStatus .running] ++ out.2.1 ++ c.2.1, .completed)
  | res => (st2, [.driverStart, .setStatus .running] ++ out.2.1, res)

/-- Argument to `until`: the source types it as a thunk but at runtime also
accepts a plain value, distinguished by a `typeof` check. -/
inductive UntilArg
  | fn (pred : Nat → Bool)
  | val (b : Bool)

/-- The check `until` performs after the invocation with index `i`: the thunk
is re-evaluated each iteration, a plain value is constant. -/
def untilCheck : UntilArg → Nat → Bool
  | .fn p, i => p i
  | .val b, _ => b

/-- The recursive `run` closure of `Repeater.until(finished)`: one
`_doAction`, then evaluate the check; recurse while it is false. -/
def untilLoop (fails : Nat → Bool) (tm : Option Int) (arg : UntilArg) :
    Nat → Nat → Nat × List Event × RunResult
  | 0, r => (r, [], .diverged)
  | fuel + 1, r =>
    let i := r + 1
    if fails i then (i, sleepEvs tm ++ [.actStart i], .errored)
    else if untilCheck arg i then (i, stepEvs tm i, .completed)
    else
      let out := untilLoop fails tm arg fuel i
      (out.1, stepEvs tm i ++ out.2.1, out.2.2)

/-- `Repeater.until(finished)`: same frame as `repeat`, with the predicate
check in place of the count check. -/
def untilDriver (fails : Nat → Bool) (t0 t1 : Nat) (fuel : Nat) (arg : UntilArg)
    (st : RState) : RState × List Event × RunResult :=
  let st1 := { st with status := .running, startDate := some t0 }
  let out := untilLoop fails st1.timeout arg fuel st1.repeated
  let st2 := { st1 with repeated := out.1 }
  match out.2.2 with
  | .completed =>
    let c := completeRun t1 st2
    (c.1, [.driverStart, .setStatus .running] ++ out.2.1 ++ c.2.1, .completed)
  | res => (st2, [.driverStart, .setStatus .running] ++ out.2.1, res)

/-- The fields of the instance that the background loop of `infinite()` and
the external `stop()` both touch, plus the public `status` (which `stop()`'s
`_complete()` writes while the loop is in flight). -/
structure ICfg where
  repeated : Nat
  stopped : Bool
  status : Status
deriving DecidableEq, Repr

/-- One `await` of the background loop, numbered `ai`.  When the schedule
says `stop()` is called during this await (`stopAt = some ai`), its
synchronous effects run: `_stopped = true` and `_complete()` (counter reset,
status complete; `startDate` is always set during an `infinite` run, so no
throw). -/
def doAwait (stopAt : Option Nat) (ai : Nat) (c : ICfg) : ICfg × List Event :=
  if stopAt = some ai then
    ({ repeated := 0, stopped := true, status := .complete },
     [.stopCall, .setStatus .complete])
  else (c, [])

/-- The recursive `run` closure of `Repeater.infinite()`: increment the
counter, optionally sleep, and only then check `_stopped`; when not stopped,
invoke the action (reading the counter before the await) and recurse.  `ai`
numbers the awaits performed so far, `stopAt` schedules the external
`stop()`.  The returned `Bool` is `true` when the loop unwound (stop seen or
action threw) and `false` when the fuel ran out with the loop still going. -/
def infLoop (fails : Nat → Bool) (tm : Option Int) (stopAt : Option Nat) :
    Nat → Nat → ICfg → ICfg × List Event × Bool
  | 0, _, c => (c, [], false)
  | fuel + 1, ai, c =>
    let c1 := { c with repeated := c.repeated + 1 }
    if timeoutTruthy tm then
      let a := doAwait stopAt ai c1
      let evs0 := .sleepStart (tm.getD 0) :: a.2 ++ [.sleepEnd]
      if a.1.stopped then (a.1, evs0, true)
      else
        let i := a.1.repeated
        if fails i then
          let b := doAwait stopAt (ai + 1) a.1
          (b.1, evs0 ++ .actStart i :: b.2, true)
        else
          let b := doAwait stopAt (ai + 1) a.1
          let out := infLoop fails tm stopAt fuel (ai + 2) b.1
          (out.1, evs0 ++ .actStart i :: b.2 ++ .actEnd :: out.2.1, out.2.2)
    else
      if c1.stopped then (c1, [], true)
      else
        let i := c1.repeated
        if fails i then
          let b := doAwait stopAt ai c1
          (b.1, .actStart i :: b.2, true)
        else
          let b := doAwait stopAt ai c1
          let out := infLoop fails tm stopAt fuel (ai + 1) b.1
          (out.1, .actStart i :: b.2 ++ .actEnd :: out.2.1, out.2.2)

/-- `Repeater.infinite()` observed for `fuel` loop iterations, with an
external `stop()` scheduled by `stopAt` at wall-clock time `tStop`: sets
status running and the start time, fires the background loop, and returns
immediately (the returned `Bool` reports whether the background loop has
unwound within the observed window).  `stop()`'s `endDate`/`runTime` writes
are applied when the schedule fired. -/
def infiniteDriver (fails : Nat → Bool) (t0 tStop : Nat) (stopAt : Option Nat)
    (fuel : Nat) (st : RState) : RState × List Event × Bool :=
  let st1 := { st with status := .running, startDate := some t0 }
  let out := infLoop fails st1.timeout stopAt fuel 0
    { repeated := st1.repeated, stopped := st1.stopped, status := st1.status }
  let c := out.1
  let st2 :=
    if c.status = .complete then
      { st1 with repeated := c.repeated, stopped := c.stopped, status := c.status,
                 endDate := some tStop, runTime := some ((tStop : Int) - (t0 : Int)) }
    else
      { st1 with repeated := c.repeated, stopped := c.stopped, status := c.status }
  (st2, [.driverStart, .setStatus .running] ++ out.2.1, out.2.2)

/-- `Repeater.stop()` called with no background loop in flight: set
`_stopped` and run `_complete()` at time `t1`.  The `Bool` reports the
`TypeError` thrown when `startDate` was never assigned. -/
def stop (t1 : Nat) (st : RState) : RState × List Event × Bool :=
  let st1 := { st with stopped := true }
  let c := completeRun t1 st1
  (c.1, .stopCall :: c.2.1, c.2.2)

/-- A public operation on a `Repeater` instance, with the run parameters the
embedding needs (action failure profile, wall-clock readings, fuel, stop
schedule). -/
inductive PubOp
  | everyOp (arg : EveryArg)
  | repeatOp (fails : Nat → Bool) (t0 t1 : Nat) (fuel : Nat) (count : Int)
  | untilOp (fails : Nat → Bool) (t0 t1 : Nat) (fuel : Nat) (arg : UntilArg)
  | infiniteOp (fails : Nat → Bool) (t0 tStop : Nat) (stopAt : Option Nat) (fuel : Nat)
  | stopOp (t1 : Nat)

/-- Apply one public operation.  The `Bool` is `true` when the sequence of
operations cannot continue: an awaited `repeat`/`until` chain rejected or
never resolves, or `stop()` threw.  (`infinite` is non-blocking, so later
operations always run.) -/
def applyOp (st : RState) : PubOp → RState × List Event × Bool
  | .everyOp a => (every a st, [], false)
  | .repeatOp fails t0 t1 fuel count =>
    let out := repeatDriver fails t0 t1 fuel count st
    (out.1, out.2.1, out.2.2 != .completed)
  | .untilOp fails t0 t1 fuel arg =>
    let out := untilDriver fails t0 t1 fuel arg st
    (out.1, out.2.1, out.2.2 != .completed)
  | .infiniteOp fails t0 tStop stopAt fuel =>
    let out := infiniteDriver fails t0 tStop stopAt fuel st
    (out.1, out.2.1, false)
  | .stopOp t1 =>
    let out := stop t1 st
    (out.1, out.2.1, out.2.2)

/-- Run a sequence of public operations from a state, concatenating the
event traces; a throw or a never-resolving await aborts the rest. -/
def runOps : RState → List PubOp → RState × List Event
  | st, [] => (st, [])
  | st, op :: ops =>
    let out := applyOp st op
    if out.2.2 then (out.1, out.2.1)
    else
      let rest := runOps out.1 ops
      (rest.1, out.2.1 ++ rest.2)

/-- Events that are irrelevant to the status state machine: everything except
`driverStart` and writes of `idle`/`running`. -/
def safeEv : Event → Bool
  | .driverStart => false
  | .setStatus .idle => false
  | .setStatus .running => false
  | _ => true

/-- The status discipline over a trace: `idle` is never written (so the
status never moves back to `idle`), and every write of `running` is the one a
driver performs at its entry (immediately after `driverStart`) — so the only
way to re-enter `running`, in particular from `complete`, is a fresh driver
call.  The flag records whether the previous event was `driverStart`. -/
def goodStatusTrace (afterDriver : Bool) : List Event → Bool
  | [] => true
  | e :: rest =>
    match e with
    | .driverStart => goodStatusTrace true rest
    | .setStatus .idle => false
    | .setStatus .running => afterDriver && goodStatusTrace false rest
    | _ => goodStatusTrace false rest

/-! ## Trace helpers -/

lemma actStartIdxs_append (a b : List Event) :
    actStartIdxs (a ++ b) = actStartIdxs a ++ actStartIdxs b :=
  List.filterMap_append a b _

lemma actStartIdxs_sleepEvs (tm : Option Int) : actStartIdxs (sleepEvs tm) = [] := by
  unfold sleepEvs
  split <;> simp [actStartIdxs]

lemma actStartIdxs_stepEvs (tm : Option Int) (i : Nat) :
    actStartIdxs (stepEvs tm i) = [i] := by
  unfold stepEvs
  rw [actStartIdxs_append, actStartIdxs_sleepEvs]
  simp [actStartIdxs]

lemma actStartIdxs_flat (tm : Option Int) :
    ∀ l : List Nat, actStartIdxs (l.flatMap (stepEvs tm)) = l
  | [] => by simp [actStartIdxs]
  | i :: l => by
    rw [List.flatMap_cons, actStartIdxs_append, actStartIdxs_stepEvs,
      actStartIdxs_flat tm l]
    rfl

lemma flat_stepEvs_concat (tm : Option Int) :
    ∀ (n a : Nat), 0 < n →
      ∃ pre, (List.range' a n).flatMap (stepEvs tm) = pre ++ [Event.actEnd]
  | 0, _, h => absurd h (by omega)
  | n + 1, a, _ => by
    rw [List.range'_1_concat, List.flatMap_append]
    refine ⟨(List.range' a n).flatMap (stepEvs tm) ++ (sleepEvs tm ++ [Event.actStart (a + n)]), ?_⟩
    simp [stepEvs]

/-! ## The `repeat` loop -/

lemma repeatLoop_ok (fails : Nat → Bool) (tm : Option Int) :
    ∀ (N fuel r : Nat), 0 < N → N ≤ fuel →
      (∀ j, r < j → j ≤ r + N → fails j = false) →
      repeatLoop fails tm fuel r (N : Int) =
        (r + N, (List.range' (r + 1) N).flatMap (stepEvs tm), .completed) := by
  intro N
  induction N with
  | zero => omega
  | succ n ih =>
    intro fuel r _ hfuel hfails
    obtain ⟨f, rfl⟩ : ∃ f, fuel = f + 1 := ⟨fuel - 1, by omega⟩
    have hc : ((n + 1 : Nat) : Int) - 1 = (n : Int) := by push_cast; ring
    simp only [repeatLoop, hfails (r + 1) (by omega) (by omega), Bool.false_eq_true,
      if_false, hc]
    cases n with
    | zero =>
      simp [List.range'_succ]
    | succ m =>
      have hne : ((m + 1 : Nat) : Int) ≠ 0 := by positivity
      rw [if_neg hne]
      rw [ih f (r + 1) (by omega) (by omega)
        (fun j h1 h2 => hfails j (by omega) (by omega))]
      simp only [List.range'_succ, List.flatMap_cons]
      refine Prod.ext (by omega) (Prod.ext ?_ rfl)
      simp

lemma repeatLoop_err (fails : Nat → Bool) (tm : Option Int) :
    ∀ (f fuel r : Nat) (count : Int), 0 < f → f ≤ fuel →
      (∀ j, r < j → j < r + f → fails j = false) →
      fails (r + f) = true →
      (∀ k : Nat, 0 < k → k < f → count - k ≠ 0) →
      repeatLoop fails tm fuel r count =
        (r + f,
         (List.range' (r + 1) (f - 1)).flatMap (stepEvs tm) ++
           (sleepEvs tm ++ [Event.actStart (r + f)]),
         .errored) := by
  intro f
  induction f with
  | zero => omega
  | succ n ih =>
    intro fuel r count _ hfuel hbef hflast hcnt
    obtain ⟨fu, rfl⟩ : ∃ fu, fuel = fu + 1 := ⟨fuel - 1, by omega⟩
    cases n with
    | zero =>
      have h1 : r + 1 = r + 1 := rfl
      simp only [repeatLoop]
      rw [show r + 1 = r + 0 + 1 by omega] at hflast
      simp [hflast]
    | succ m =>
      have h1 : fails (r + 1) = false := hbef (r + 1) (by omega) (by omega)
      have h2 : count - 1 ≠ 0 := hcnt 1 (by omega) (by omega)
      simp only [repeatLoop, h1, Bool.false_eq_true, if_false, if_neg h2]
      rw [ih fu (r + 1) (count - 1) (by omega) (by omega)
        (fun j ha hb => hbef j (by omega) (by omega))
        (by rw [show r + 1 + (m + 1) = r + (m + 1 + 1) by omega]; exact hflast)
        (fun k hk1 hk2 => by
          have := hcnt (k + 1) (by omega) (by omega)
          intro hcontra
          apply this
          omega)]
      refine Prod.ext (by omega) (Prod.ext ?_ rfl)
      have hr : List.range' (r + 1) (m + 1 + 1 - 1) =
          (r + 1) :: List.range' (r + 2) (m + 1 - 1) := by
        simp only [Nat.add_sub_cancel]
        rw [List.range'_succ]
      rw [hr, List.flatMap_cons]
      simp only [stepEvs]
      rw [show r + 1 + (m + 1) = r + (m + 1 + 1) by omega]
      simp [List.append_assoc]

lemma repeatLoop_nonpos (fails : Nat → Bool) (tm : Option Int) :
    ∀ (fuel r : Nat) (count : Int), count ≤ 0 → (∀ j, fails j = false) →
      repeatLoop fails tm fuel r count =
        (r + fuel, (List.range' (r + 1) fuel).flatMap (stepEvs tm), .diverged)
  | 0, r, count, _, _ => by simp [repeatLoop]
  | fuel + 1, r, count, hc, hf => by
    have h2 : count - 1 ≠ 0 := by omega
    simp only [repeatLoop, hf (r + 1), Bool.false_eq_true, if_false, if_neg h2]
    rw [repeatLoop_nonpos fails tm fuel (r + 1) (count - 1) (by omega) hf]
    refine Prod.ext (by omega) (Prod.ext ?_ rfl)
    rw [List.range'_succ, List.flatMap_cons]

/-! ## The `until` loop -/

lemma untilLoop_ok (fails : Nat → Bool) (tm : Option Int) (arg : UntilArg) :
    ∀ (k fuel r : Nat), 0 < k → k ≤ fuel →
      (∀ j, r < j → j ≤ r + k → fails j = false) →
      (∀ j, 0 < j → j < k → untilCheck arg (r + j) = false) →
      untilCheck arg (r + k) = true →
      untilLoop fails tm arg fuel r =
        (r + k, (List.range' (r + 1) k).flatMap (stepEvs tm), .completed) := by
  intro k
  induction k with
  | zero => omega
  | succ n ih =>
    intro fuel r _ hfuel hfails hbef hlast
    obtain ⟨f, rfl⟩ : ∃ f, fuel = f + 1 := ⟨fuel - 1, by omega⟩
    simp only [untilLoop, hfails (r + 1) (by omega) (by omega), Bool.false_eq_true,
      if_false]
    cases n with
    | zero =>
      rw [show r + 1 = r + 0 + 1 from rfl] at hlast
      simp [hlast]
    | succ m =>
      have h1 : untilCheck arg (r + 1) = false := hbef 1 (by omega) (by omega)
      simp only [h1, Bool.false_eq_true, if_false]
      rw [ih f (r + 1) (by omega) (by omega)
        (fun j ha hb => hfails j (by omega) (by omega))
        (fun j ha hb => by
          rw [show r + 1 + j = r + (j + 1) by omega]
          exact hbef (j + 1) (by omega) (by omega))
        (by rw [show r + 1 + (m + 1) = r + (m + 1 + 1) by omega]; exact hlast)]
      simp only [List.range'_succ, List.flatMap_cons]
      refine Prod.ext (by omega) (Prod.ext ?_ rfl)
      simp

lemma untilLoop_err (fails : Nat → Bool) (tm : Option Int) (arg : UntilArg) :
    ∀ (f fuel r : Nat), 0 < f → f ≤ fuel →
      (∀ j, r < j → j < r + f → fails j = false) →
      fails (r + f) = true →
      (∀ j, 0 < j → j < f → untilCheck arg (r + j) = false) →
      untilLoop fails tm arg fuel r =
        (r + f,
         (List.range' (r + 1) (f - 1)).flatMap (stepEvs tm) ++
           (sleepEvs tm ++ [Event.actStart (r + f)]),
         .errored) := by
  intro f
  induction f with
  | zero => omega
  | succ n ih =>
    intro fuel r _ hfuel hbef hflast hpred
    obtain ⟨fu, rfl⟩ : ∃ fu, fuel = fu + 1 := ⟨fuel - 1, by omega⟩
    cases n with
    | zero =>
      simp only [untilLoop]
      rw [show r + 1 = r + 0 + 1 from rfl] at hflast
      simp [hflast]
    | succ m =>
      have h1 : fails (r + 1) = false := hbef (r + 1) (by omega) (by omega)
      have h2 : untilCheck arg (r + 1) = false := hpred 1 (by omega) (by omega)
      simp only [untilLoop, h1, h2, Bool.false_eq_true, if_false]
      rw [ih fu (r + 1) (by omega) (by omega)
        (fun j ha hb => hbef j (by omega) (by omega))
        (by rw [show r + 1 + (m + 1) = r + (m + 1 + 1) by omega]; exact hflast)
        (fun j ha hb => by
          rw [show r + 1 + j = r + (j + 1) by omega]
          exact hpred (j + 1) (by omega) (by omega))]
      refine Prod.ext (by omega) (Prod.ext ?_ rfl)
      have hr : List.range' (r + 1) (m + 1 + 1 - 1) =
          (r + 1) :: List.range' (r + 2) (m + 1 - 1) := by
        simp only [Nat.add_sub_cancel]
        rw [List.range'_succ]
      rw [hr, List.flatMap_cons]
      simp only [stepEvs]
      rw [show r + 1 + (m + 1) = r + (m + 1 + 1) by omega]
      simp [List.append_assoc]

/-! ## The `infinite` loop under a `stop()` schedule -/

lemma doAwait_miss (stopAt : Option Nat) (ai : Nat) (c : ICfg) (h : ¬ stopAt = some ai) :
    doAwait stopAt ai c = (c, []) := by
  simp [doAwait, h]

lemma doAwait_hit (n : Nat) (c : ICfg) :
    doAwait (some n) n c = (⟨0, true, .complete⟩, [.stopCall, .setStatus .complete]) := by
  simp [doAwait]

lemma infLoop_stopped (fails : Nat → Bool) (tm : Option Int) (stopAt : Option Nat)
    (fuel ai : Nat) (c : ICfg) (ht : timeoutTruthy tm = true)
    (hne : stopAt ≠ some ai) (hc : c.stopped = true) :
    infLoop fails tm stopAt (fuel + 1) ai c =
      ({ c with repeated := c.repeated + 1 }, [.sleepStart (tm.getD 0), .sleepEnd], true) := by
  simp only [infLoop, ht, if_true, doAwait, if_neg hne, hc]
  simp

lemma infLoop_stop (fails : Nat → Bool) (hfails : ∀ j, fails j = false)
    (t : Int) (ht : t ≠ 0) (n : Nat) :
    ∀ (fuel ai r : Nat), ai = 2 * r → ai ≤ n → n + 2 ≤ ai + fuel →
      ∃ pre,
        infLoop fails (some t) (some n) fuel ai ⟨r, false, .running⟩ =
          (⟨if n % 2 = 0 then 0 else 1, true, .complete⟩,
           pre ++ Event.stopCall :: Event.setStatus .complete ::
             (if n % 2 = 0 then [Event.sleepEnd]
              else [Event.actEnd, Event.sleepStart t, Event.sleepEnd]),
           true) := by
  have htt : timeoutTruthy (some t) = true := by simp [timeoutTruthy, ht]
  intro fuel
  induction fuel with
  | zero => omega
  | succ f ih =>
    intro ai r hair hain hfuel
    by_cases h1 : ai = n
    · have hmod : n % 2 = 0 := by omega
      refine ⟨[.sleepStart t], ?_⟩
      rw [if_pos hmod, if_pos hmod]
      simp only [infLoop, htt, if_true]
      rw [show (ai : Nat) = n from h1, doAwait_hit]
      simp
    · by_cases h2 : ai + 1 = n
      · have hmod : ¬ n % 2 = 0 := by omega
        refine ⟨[.sleepStart t, .sleepEnd, .actStart (r + 1)], ?_⟩
        rw [if_neg hmod, if_neg hmod]
        simp only [infLoop, htt, if_true]
        rw [doAwait_miss (some n) ai _ (by simp; omega)]
        dsimp only
        simp only [hfails (r + 1), Bool.false_eq_true, if_false]
        rw [show (ai : Nat) + 1 = n from h2, doAwait_hit]
        dsimp only
        obtain ⟨f2, rfl⟩ : ∃ f2, f = f2 + 1 := ⟨f - 1, by omega⟩
        rw [infLoop_stopped fails (some t) (some n) f2 (ai + 2) ⟨0, true, .complete⟩ htt
          (by simp; omega) rfl]
        simp
      · have h3 : ai + 2 ≤ n := by omega
        obtain ⟨pre2, heq⟩ := ih (ai + 2) (r + 1) (by omega) (by omega) (by omega)
        refine ⟨[.sleepStart t, .sleepEnd, .actStart (r + 1), .actEnd] ++ pre2, ?_⟩
        simp only [infLoop, htt, if_true]
        rw [doAwait_miss (some n) ai _ (by simp; omega)]
        dsimp only
        simp only [hfails (r + 1), Bool.false_eq_true, if_false]
        rw [doAwait_miss (some n) (ai + 1) _ (by simp; omega)]
        dsimp only
        rw [heq]
        simp

/-! ## Status-trace discipline -/

lemma goodStatusTrace_mono :
    ∀ l : List Event, goodStatusTrace false l = true → ∀ flag, goodStatusTrace flag l = true
  | [], _, _ => rfl
  | e :: rest, h, flag => by
    cases e with
    | setStatus s =>
      cases s with
      | idle => simp [goodStatusTrace] at h
      | running => simp [goodStatusTrace] at h
      | complete =>
        simp only [goodStatusTrace] at h ⊢
        exact h
    | driverStart =>
      simp only [goodStatusTrace] at h ⊢
      exact h
    | sleepStart ms =>
      simp only [goodStatusTrace] at h ⊢
      exact h
    | sleepEnd =>
      simp only [goodStatusTrace] at h ⊢
      exact h
    | actStart i =>
      simp only [goodStatusTrace] at h ⊢
      exact h
    | actEnd =>
      simp only [goodStatusTrace] at h ⊢
      exact h
    | stopCall =>
      simp only [goodStatusTrace] at h ⊢
      exact h

lemma goodStatusTrace_append_safe :
    ∀ a : List Event, a.all safeEv = true → ∀ (b : List Event) (flag : Bool),
      goodStatusTrace false b = true → goodStatusTrace flag (a ++ b) = true
  | [], _, b, flag, hb => goodStatusTrace_mono b hb flag
  | e :: a2, ha, b, flag, hb => by
    simp only [List.all_cons, Bool.and_eq_true] at ha
    obtain ⟨he, ha2⟩ := ha
    have hrec := goodStatusTrace_append_safe a2 ha2 b false hb
    cases e with
    | setStatus s =>
      cases s with
      | idle => simp [safeEv] at he
      | running => simp [safeEv] at he
      | complete => simpa only [List.cons_append, goodStatusTrace] using hrec
    | driverStart => simp [safeEv] at he
    | sleepStart ms => simpa only [List.cons_append, goodStatusTrace] using hrec
    | sleepEnd => simpa only [List.cons_append, goodStatusTrace] using hrec
    | actStart i => simpa only [List.cons_append, goodStatusTrace] using hrec
    | actEnd => simpa only [List.cons_append, goodStatusTrace] using hrec
    | stopCall => simpa only [List.cons_append, goodStatusTrace] using hrec

lemma safeEv_sleepEvs (tm : Option Int) : (sleepEvs tm).all safeEv = true := by
  unfold sleepEvs
  split <;> simp [safeEv]

lemma safeEv_stepEvs (tm : Option Int) (i : Nat) : (stepEvs tm i).all safeEv = true := by
  simp [stepEvs, safeEv_sleepEvs, safeEv]

lemma repeatLoop_evs_safe (fails : Nat → Bool) (tm : Option Int) :
    ∀ (fuel r : Nat) (count : Int),
      ((repeatLoop fails tm fuel r count).2.1).all safeEv = true
  | 0, r, count => by simp [repeatLoop]
  | fuel + 1, r, count => by
    have hrec := repeatLoop_evs_safe fails tm fuel (r + 1) (count - 1)
    simp only [repeatLoop]
    split
    · simp [safeEv_sleepEvs, safeEv]
    · split
      · simp [safeEv_stepEvs]
      · simp [safeEv_stepEvs, hrec]

lemma untilLoop_evs_safe (fails : Nat → Bool) (tm : Option Int) (arg : UntilArg) :
    ∀ (fuel r : Nat), ((untilLoop fails tm arg fuel r).2.1).all safeEv = true
  | 0, r => by simp [untilLoop]
  | fuel + 1, r => by
    have hrec := untilLoop_evs_safe fails tm arg fuel (r + 1)
    simp only [untilLoop]
    split
    · simp [safeEv_sleepEvs, safeEv]
    · split
      · simp [safeEv_stepEvs]
      · simp [safeEv_stepEvs, hrec]

lemma doAwait_evs_safe (stopAt : Option Nat) (ai : Nat) (c : ICfg) :
    ((doAwait stopAt ai c).2).all safeEv = true := by
  unfold doAwait
  split <;> simp [safeEv]

lemma infLoop_evs_safe (fails : Nat → Bool) (tm : Option Int) (stopAt : Option Nat) :
    ∀ (fuel ai : Nat) (c : ICfg),
      ((infLoop fails tm stopAt fuel ai c).2.1).all safeEv = true
  | 0, ai, c => by simp [infLoop]
  | fuel + 1, ai, c => by
    simp only [infLoop]
    split
    · split
      · simp [safeEv, doAwait_evs_safe]
      · split
        · simp [safeEv, doAwait_evs_safe]
        · have hrec := infLoop_evs_safe fails tm stopAt fuel (ai + 2)
            (doAwait stopAt (ai + 1) (doAwait stopAt ai
              { c with repeated := c.repeated + 1 }).1).1
          simp [safeEv, doAwait_evs_safe, hrec]
    · split
      · simp [safeEv]
      · split
        · simp [safeEv, doAwait_evs_safe]
        · have hrec := infLoop_evs_safe fails tm stopAt fuel (ai + 1)
            (doAwait stopAt ai { c with repeated := c.repeated + 1 }).1
          simp [safeEv, doAwait_evs_safe, hrec]

lemma completeRun_evs (now : Nat) (st : RState) :
    (completeRun now st).2.1 = [Event.setStatus .complete] := by
  rcases hsd : st.startDate with _ | t0 <;> simp [completeRun, hsd]

lemma goodStatusTrace_cons_driver (X : List Event)
    (hX : goodStatusTrace false X = true) :
    goodStatusTrace false (Event.driverStart :: Event.setStatus .running :: X) = true := by
  simpa only [goodStatusTrace, Bool.true_and] using hX

lemma goodStatusTrace_cons_complete (X : List Event) :
    goodStatusTrace false (Event.setStatus .complete :: X) = goodStatusTrace false X := by
  simp only [goodStatusTrace]

lemma goodStatusTrace_cons_stopCall (X : List Event) :
    goodStatusTrace false (Event.stopCall :: X) = goodStatusTrace false X := by
  simp only [goodStatusTrace]

lemma applyOp_evs_good (st : RState) (op : PubOp) (b : List Event)
    (hb : goodStatusTrace false b = true) :
    goodStatusTrace false ((applyOp st op).2.1 ++ b) = true := by
  cases op with
  | everyOp a => simpa [applyOp] using hb
  | repeatOp fails t0 t1 fuel count =>
    simp only [applyOp, repeatDriver]
    split
    · rw [completeRun_evs]
      simp only [List.cons_append, List.nil_append, List.append_assoc]
      exact goodStatusTrace_cons_driver _
        (goodStatusTrace_append_safe _ (repeatLoop_evs_safe fails _ fuel _ count) _ false
          (by simpa only [List.cons_append, List.nil_append, goodStatusTrace_cons_complete] using hb))
    · simp only [List.cons_append, List.nil_append, List.append_assoc]
      exact goodStatusTrace_cons_driver _
        (goodStatusTrace_append_safe _ (repeatLoop_evs_safe fails _ fuel _ count) _ false hb)
  | untilOp fails t0 t1 fuel arg =>
    simp only [applyOp, untilDriver]
    split
    · rw [completeRun_evs]
      simp only [List.cons_append, List.nil_append, List.append_assoc]
      exact goodStatusTrace_cons_driver _
        (goodStatusTrace_append_safe _ (untilLoop_evs_safe fails _ arg fuel _) _ false
          (by simpa only [List.cons_append, List.nil_append, goodStatusTrace_cons_complete] using hb))
    · simp only [List.cons_append, List.nil_append, List.append_assoc]
      exact goodStatusTrace_cons_driver _
        (goodStatusTrace_append_safe _ (untilLoop_evs_safe fails _ arg fuel _) _ false hb)
  | infiniteOp fails t0 tStop stopAt fuel =>
    simp only [applyOp, infiniteDriver]
    simp only [List.cons_append, List.nil_append, List.append_assoc]
    exact goodStatusTrace_cons_driver _
      (goodStatusTrace_append_safe _ (infLoop_evs_safe fails _ stopAt fuel 0 _) _ false hb)
  | stopOp t1 =>
    simp only [applyOp, stop]
    rw [completeRun_evs]
    simp only [List.cons_append, List.nil_append, goodStatusTrace_cons_stopCall,
      goodStatusTrace_cons_complete]
    exact hb

lemma runOps_good : ∀ (ops : List PubOp) (st : RState),
    goodStatusTrace false (runOps st ops).2 = true
  | [], _ => rfl
  | op :: ops, st => by
    simp only [runOps]
    split
    · simpa using applyOp_evs_good st op [] rfl
    · exact applyOp_evs_good st op _ (runOps_good ops _)

/-! ## `every` string parsing -/

lemma takeWhile_digits (s : Char) (hs : s.isDigit = false) (rest : List Char) :
    ∀ ds : List Char, (∀ c ∈ ds, c.isDigit = true) →
      (ds ++ s :: rest).takeWhile Char.isDigit = ds
  | [], _ => by simp [List.takeWhile_cons, hs]
  | d :: ds2, hds => by
    have hd : d.isDigit = true := hds d (by simp)
    simp only [List.cons_append, List.takeWhile_cons, hd, if_true]
    rw [takeWhile_digits s hs rest ds2 (fun c hc => hds c (by simp [hc]))]

lemma parseIntJS_digits (ds : List Char) (hne : ds ≠ [])
    (hds : ∀ c ∈ ds, c.isDigit = true) (s : Char) (hs : s.isDigit = false)
    (rest : List Char) :
    parseIntJS (ds ++ s :: rest) = some ((digitsToNat ds : Int)) := by
  obtain ⟨d, ds2, rfl⟩ : ∃ d ds2, ds = d :: ds2 := by
    cases ds with
    | nil => exact absurd rfl hne
    | cons d ds2 => exact ⟨d, ds2, rfl⟩
  have hd : d.isDigit = true := hds d (by simp)
  have hd1 : ¬ d = '-' := by intro h; subst h; exact absurd hd (by decide)
  have hd2 : ¬ d = '+' := by intro h; subst h; exact absurd hd (by decide)
  simp only [List.cons_append, parseIntJS, if_neg hd1, if_neg hd2]
  unfold parseDigits
  rw [show d :: (ds2 ++ s :: rest) = (d :: ds2) ++ s :: rest from rfl]
  rw [takeWhile_digits s hs rest (d :: ds2) hds]
  simp

lemma endsWith_append_self (l suf : List Char) : endsWith (l ++ suf) suf = true := by
  unfold endsWith
  exact List.isSuffixOf_iff_suffix.mpr (List.suffix_append l suf)

lemma not_endsWith_s_ms (ds : List Char) (hds : ∀ c ∈ ds, c.isDigit = true) :
    endsWith (ds ++ ['s']) ['m', 's'] = false := by
  rw [Bool.eq_false_iff]
  intro h
  obtain ⟨tl, htl⟩ := List.isSuffixOf_iff_suffix.mp h
  have h2 : (tl ++ ['m']) ++ ['s'] = ds ++ ['s'] := by simpa using htl
  have h3 : tl ++ ['m'] = ds := by
    have := congrArg List.dropLast h2
    simpa using this
  have hm : ('m' : Char) ∈ ds := by rw [← h3]; simp
  exact absurd (hds 'm' hm) (by decide)

lemma not_endsWith_m_ms (ds : List Char) :
    endsWith (ds ++ ['m']) ['m', 's'] = false := by
  rw [Bool.eq_false_iff]
  intro h
  obtain ⟨tl, htl⟩ := List.isSuffixOf_iff_suffix.mp h
  have h1 := congrArg List.getLast? htl
  rw [show tl ++ ['m', 's'] = (tl ++ ['m']) ++ ['s'] from by simp] at h1
  rw [List.getLast?_concat, List.getLast?_concat] at h1
  exact absurd h1 (by decide)

lemma not_endsWith_m_s (ds : List Char) :
    endsWith (ds ++ ['m']) ['s'] = false := by
  rw [Bool.eq_false_iff]
  intro h
  obtain ⟨tl, htl⟩ := List.isSuffixOf_iff_suffix.mp h
  have h1 := congrArg List.getLast? htl
  rw [List.getLast?_concat, List.getLast?_concat] at h1
  exact absurd h1 (by decide)

lemma actStartIdxs_nil : actStartIdxs [] = [] := rfl

lemma actStartIdxs_cons_driverStart (l : List Event) :
    actStartIdxs (Event.driverStart :: l) = actStartIdxs l := rfl

lemma actStartIdxs_cons_setStatus (s : Status) (l : List Event) :
    actStartIdxs (Event.setStatus s :: l) = actStartIdxs l := rfl

lemma actStartIdxs_cons_sleepStart (ms : Int) (l : List Event) :
    actStartIdxs (Event.sleepStart ms :: l) = actStartIdxs l := rfl

lemma actStartIdxs_cons_sleepEnd (l : List Event) :
    actStartIdxs (Event.sleepEnd :: l) = actStartIdxs l := rfl

lemma actStartIdxs_cons_actEnd (l : List Event) :
    actStartIdxs (Event.actEnd :: l) = actStartIdxs l := rfl

lemma actStartIdxs_cons_stopCall (l : List Event) :
    actStartIdxs (Event.stopCall :: l) = actStartIdxs l := rfl

lemma actStartIdxs_cons_actStart (i : Nat) (l : List Event) :
    actStartIdxs (Event.actStart i :: l) = i :: actStartIdxs l := rfl

/-! ## Claim theorems -/

/-- C1: for every positive integer `N` and every (non-throwing) action,
`repeat(action).repeat(N)` invokes the action exactly `N` times, with the
1-based call indices `1, 2, …, N` in order, and the returned awaitable
resolves only after the last invocation completes: the run ends normally,
the invocation-index trace is exactly `[1, …, N]`, and the full event trace
ends with the last invocation's completion followed only by the completion
bookkeeping. -/
theorem repeat_count_exact (fails : Nat → Bool) (tm : Option Int) (t0 t1 N fuel : Nat)
    (hN : 0 < N) (hfuel : N ≤ fuel) (hfails : ∀ j, fails j = false) :
    (repeatDriver fails t0 t1 fuel (N : Int) { initState with timeout := tm }).2.2 =
      RunResult.completed ∧
    actStartIdxs (repeatDriver fails t0 t1 fuel (N : Int) { initState with timeout := tm }).2.1 =
      List.range' 1 N ∧
    ∃ pre, (repeatDriver fails t0 t1 fuel (N : Int) { initState with timeout := tm }).2.1 =
      pre ++ [Event.actEnd, Event.setStatus .complete] := by
  have hloop := repeatLoop_ok fails tm N fuel 0 hN hfuel (fun j _ _ => hfails j)
  obtain ⟨pre0, hpre0⟩ := flat_stepEvs_concat tm N 1 hN
  refine ⟨?_, ?_, ?_⟩
  · simp [repeatDriver, initState, hloop, completeRun]
  · simp [repeatDriver, initState, hloop, completeRun_evs, actStartIdxs_append,
      actStartIdxs_cons_driverStart, actStartIdxs_cons_setStatus, actStartIdxs_nil,
      actStartIdxs_flat]
  · refine ⟨[Event.driverStart, Event.setStatus .running] ++ pre0, ?_⟩
    simp [repeatDriver, initState, hloop, hpre0, completeRun_evs]

theorem repeat_count_exact_witness :
    (repeatDriver (fun _ => false) 100 250 3 ((3 : Nat) : Int)
      { initState with timeout := none }).2.2 = RunResult.completed ∧
    actStartIdxs (repeatDriver (fun _ => false) 100 250 3 ((3 : Nat) : Int)
      { initState with timeout := none }).2.1 = List.range' 1 3 ∧
    ∃ pre, (repeatDriver (fun _ => false) 100 250 3 ((3 : Nat) : Int)
      { initState with timeout := none }).2.1 =
        pre ++ [Event.actEnd, Event.setStatus .complete] :=
  repeat_count_exact (fun _ => false) none 100 250 3 3 (by decide) (by decide)
    (fun _ => rfl)

/-- C2: for every predicate function, `until(predicate)` performs at least
one invocation before the first predicate check (the check happens after
each invocation, never before), and once the predicate first returns `true`
— after the `k`-th invocation, `k ≥ 1` — the action is never invoked again
and the driver completes: the invocation-index trace is exactly `[1, …, k]`.
In particular, for a predicate that is already `true` at the first check
(`k = 1`), exactly one invocation happens. -/
theorem until_first_true_stops (fails pred : Nat → Bool) (tm : Option Int)
    (t0 t1 k fuel : Nat) (hk : 0 < k) (hfuel : k ≤ fuel)
    (hfails : ∀ j, fails j = false)
    (hbefore : ∀ j, 0 < j → j < k → pred j = false) (hktrue : pred k = true) :
    (untilDriver fails t0 t1 fuel (.fn pred) { initState with timeout := tm }).2.2 =
      RunResult.completed ∧
    actStartIdxs (untilDriver fails t0 t1 fuel (.fn pred)
      { initState with timeout := tm }).2.1 = List.range' 1 k := by
  have hloop := untilLoop_ok fails tm (.fn pred) k fuel 0 hk hfuel
    (fun j _ _ => hfails j)
    (fun j h1 h2 => by simpa [untilCheck] using hbefore j h1 h2)
    (by simpa [untilCheck] using hktrue)
  refine ⟨?_, ?_⟩
  · simp [untilDriver, initState, hloop, completeRun]
  · simp [untilDriver, initState, hloop, completeRun_evs, actStartIdxs_append,
      actStartIdxs_cons_driverStart, actStartIdxs_cons_setStatus, actStartIdxs_nil,
      actStartIdxs_flat]

theorem until_first_true_stops_witness :
    (untilDriver (fun _ => false) 7 9 10 (.fn (fun j => decide (2 ≤ j)))
      { initState with timeout := none }).2.2 = RunResult.completed ∧
    actStartIdxs (untilDriver (fun _ => false) 7 9 10 (.fn (fun j => decide (2 ≤ j)))
      { initState with timeout := none }).2.1 = List.range' 1 2 :=
  until_first_true_stops (fun _ => false) (fun j => decide (2 ≤ j)) none 7 9 2 10
    (by decide) (by decide) (fun _ => rfl)
    (fun j h1 h2 => by have hj : j = 1 := by omega
                       subst hj; decide) (by decide)

/-- C3 (code bug): the claim says `repeat(count)` with `count ≤ 0` performs
no invocation.  The source's loop performs `_doAction` first and only then
decrements and tests `count`, and a nonpositive count decremented never hits
zero again, so the action IS invoked (once per available step) and the run
never completes naturally: with any fuel, the run is still diverging, the
invocation-index trace is `[1, …, fuel]`, and in particular the first
invocation did happen. -/
theorem repeat_nonpositive_still_invokes (fails : Nat → Bool) (tm : Option Int)
    (t0 t1 fuel : Nat) (count : Int) (hcount : count ≤ 0)
    (hfails : ∀ j, fails j = false) :
    (repeatDriver fails t0 t1 fuel count { initState with timeout := tm }).2.2 =
      RunResult.diverged ∧
    actStartIdxs (repeatDriver fails t0 t1 fuel count
      { initState with timeout := tm }).2.1 = List.range' 1 fuel ∧
    (1 ≤ fuel → Event.actStart 1 ∈ (repeatDriver fails t0 t1 fuel count
      { initState with timeout := tm }).2.1) := by
  have hloop := repeatLoop_nonpos fails tm fuel 0 count hcount hfails
  refine ⟨?_, ?_, ?_⟩
  · simp [repeatDriver, initState, hloop]
  · simp [repeatDriver, initState, hloop, actStartIdxs_append,
      actStartIdxs_cons_driverStart, actStartIdxs_cons_setStatus, actStartIdxs_nil,
      actStartIdxs_flat]
  · intro h1
    obtain ⟨f2, rfl⟩ : ∃ f2, fuel = f2 + 1 := ⟨fuel - 1, by omega⟩
    simp [repeatDriver, initState, hloop, List.range'_succ, stepEvs, sleepEvs]

theorem repeat_nonpositive_still_invokes_witness :
    (repeatDriver (fun _ => false) 0 9 3 0 { initState with timeout := none }).2.2 =
      RunResult.diverged ∧
    actStartIdxs (repeatDriver (fun _ => false) 0 9 3 0
      { initState with timeout := none }).2.1 = List.range' 1 3 ∧
    (1 ≤ 3 → Event.actStart 1 ∈ (repeatDriver (fun _ => false) 0 9 3 0
      { initState with timeout := none }).2.1) :=
  repeat_nonpositive_still_invokes (fun _ => false) none 0 9 3 0 (by decide)
    (fun _ => rfl)

/-- C5: whenever `repeat` or `until` completes naturally, the final state has
`status = 'complete'`, the call counter reset to `0`, `startDate`/`endDate`
recording the run's clock readings, and `runTime = endDate − startDate`. -/
theorem driver_completion_bookkeeping (fails : Nat → Bool) (t0 t1 fuel : Nat)
    (count : Int) (arg : UntilArg) (st : RState) :
    ((repeatDriver fails t0 t1 fuel count st).2.2 = RunResult.completed →
      (repeatDriver fails t0 t1 fuel count st).1.status = .complete ∧
      (repeatDriver fails t0 t1 fuel count st).1.repeated = 0 ∧
      (repeatDriver fails t0 t1 fuel count st).1.startDate = some t0 ∧
      (repeatDriver fails t0 t1 fuel count st).1.endDate = some t1 ∧
      (repeatDriver fails t0 t1 fuel count st).1.runTime =
        some ((t1 : Int) - (t0 : Int))) ∧
    ((untilDriver fails t0 t1 fuel arg st).2.2 = RunResult.completed →
      (untilDriver fails t0 t1 fuel arg st).1.status = .complete ∧
      (untilDriver fails t0 t1 fuel arg st).1.repeated = 0 ∧
      (untilDriver fails t0 t1 fuel arg st).1.startDate = some t0 ∧
      (untilDriver fails t0 t1 fuel arg st).1.endDate = some t1 ∧
      (untilDriver fails t0 t1 fuel arg st).1.runTime =
        some ((t1 : Int) - (t0 : Int))) := by
  constructor
  · intro h
    simp only [repeatDriver] at h ⊢
    rcases hres : (repeatLoop fails st.timeout fuel st.repeated count).2.2 with _ | _ | _ <;>
      simp only [hres] at h ⊢ <;>
      simp [completeRun] at h ⊢
  · intro h
    simp only [untilDriver] at h ⊢
    rcases hres : (untilLoop fails st.timeout arg fuel st.repeated).2.2 with _ | _ | _ <;>
      simp only [hres] at h ⊢ <;>
      simp [completeRun] at h ⊢

theorem driver_completion_bookkeeping_witness :
    ((repeatDriver (fun _ => false) 100 250 3 2 initState).1.status = .complete ∧
      (repeatDriver (fun _ => false) 100 250 3 2 initState).1.repeated = 0 ∧
      (repeatDriver (fun _ => false) 100 250 3 2 initState).1.startDate = some 100 ∧
      (repeatDriver (fun _ => false) 100 250 3 2 initState).1.endDate = some 250 ∧
      (repeatDriver (fun _ => false) 100 250 3 2 initState).1.runTime = some 150) ∧
    ((untilDriver (fun _ => false) 100 250 3 (.val true) initState).1.status = .complete ∧
      (untilDriver (fun _ => false) 100 250 3 (.val true) initState).1.repeated = 0 ∧
      (untilDriver (fun _ => false) 100 250 3 (.val true) initState).1.startDate = some 100 ∧
      (untilDriver (fun _ => false) 100 250 3 (.val true) initState).1.endDate = some 250 ∧
      (untilDriver (fun _ => false) 100 250 3 (.val true) initState).1.runTime = some 150) := by
  have h := driver_completion_bookkeeping (fun _ => false) 100 250 3 2 (.val true) initState
  exact ⟨h.1 (by decide), h.2 (by decide)⟩

/-- C8: if the action throws (or its promise rejects) during a `repeat` or
`until` run — say at invocation `f`, the first failing index — the failure
propagates out of the driver's awaitable (the run ends `errored`, not
`completed`), no further invocation happens (the invocation-index trace is
exactly `[1, …, f]`), the status is left `running`, and `endDate`/`runTime`
are not set for that aborted run. -/
theorem action_failure_aborts (fails : Nat → Bool) (tm : Option Int)
    (t0 t1 f fuel : Nat) (count : Int) (arg : UntilArg)
    (hf : 0 < f) (hfuel : f ≤ fuel) (hcount : (f : Int) ≤ count)
    (hbef : ∀ j, 0 < j → j < f → fails j = false) (hfl : fails f = true)
    (hpred : ∀ j, 0 < j → j < f → untilCheck arg j = false) :
    ((repeatDriver fails t0 t1 fuel count { initState with timeout := tm }).2.2 =
        RunResult.errored ∧
      actStartIdxs (repeatDriver fails t0 t1 fuel count
        { initState with timeout := tm }).2.1 = List.range' 1 f ∧
      (repeatDriver fails t0 t1 fuel count
        { initState with timeout := tm }).1.endDate = none ∧
      (repeatDriver fails t0 t1 fuel count
        { initState with timeout := tm }).1.runTime = none ∧
      (repeatDriver fails t0 t1 fuel count
        { initState with timeout := tm }).1.status = .running) ∧
    ((untilDriver fails t0 t1 fuel arg { initState with timeout := tm }).2.2 =
        RunResult.errored ∧
      actStartIdxs (untilDriver fails t0 t1 fuel arg
        { initState with timeout := tm }).2.1 = List.range' 1 f ∧
      (untilDriver fails t0 t1 fuel arg
        { initState with timeout := tm }).1.endDate = none ∧
      (untilDriver fails t0 t1 fuel arg
        { initState with timeout := tm }).1.runTime = none ∧
      (untilDriver fails t0 t1 fuel arg
        { initState with timeout := tm }).1.status = .running) := by
  obtain ⟨f2, rfl⟩ : ∃ f2, f = f2 + 1 := ⟨f - 1, by omega⟩
  have hidx : actStartIdxs ((List.range' 1 f2).flatMap (stepEvs tm) ++
      (sleepEvs tm ++ [Event.actStart (f2 + 1)])) = List.range' 1 (f2 + 1) := by
    rw [actStartIdxs_append, actStartIdxs_flat, actStartIdxs_append, actStartIdxs_sleepEvs,
      actStartIdxs_cons_actStart, actStartIdxs_nil]
    simp only [List.append_nil, List.nil_append]
    conv_lhs => rw [show f2 + 1 = 1 + f2 by omega]
    rw [← List.range'_1_concat]
  constructor
  · have hloop := repeatLoop_err fails tm (f2 + 1) fuel 0 count hf hfuel
      (fun j h1 h2 => hbef j (by omega) (by omega))
      (by simpa using hfl)
      (fun k hk1 hk2 => by omega)
    refine ⟨?_, ?_, ?_, ?_, ?_⟩ <;>
      simp [repeatDriver, initState, hloop, hidx, actStartIdxs_cons_driverStart,
        actStartIdxs_cons_setStatus]
  · have hloop := untilLoop_err fails tm arg (f2 + 1) fuel 0 hf hfuel
      (fun j h1 h2 => hbef j (by omega) (by omega))
      (by simpa using hfl)
      (fun j h1 h2 => by simpa using hpred j h1 h2)
    refine ⟨?_, ?_, ?_, ?_, ?_⟩ <;>
      simp [untilDriver, initState, hloop, hidx, actStartIdxs_cons_driverStart,
        actStartIdxs_cons_setStatus]

theorem action_failure_aborts_witness :
    ((repeatDriver (fun i => decide (i = 2)) 5 9 4 3 { initState with timeout := none }).2.2 =
        RunResult.errored ∧
      actStartIdxs (repeatDriver (fun i => decide (i = 2)) 5 9 4 3
        { initState with timeout := none }).2.1 = List.range' 1 2 ∧
      (repeatDriver (fun i => decide (i = 2)) 5 9 4 3
        { initState with timeout := none }).1.endDate = none ∧
      (repeatDriver (fun i => decide (i = 2)) 5 9 4 3
        { initState with timeout := none }).1.runTime = none ∧
      (repeatDriver (fun i => decide (i = 2)) 5 9 4 3
        { initState with timeout := none }).1.status = .running) ∧
    ((untilDriver (fun i => decide (i = 2)) 5 9 4 (.val false)
        { initState with timeout := none }).2.2 = RunResult.errored ∧
      actStartIdxs (untilDriver (fun i => decide (i = 2)) 5 9 4 (.val false)
        { initState with timeout := none }).2.1 = List.range' 1 2 ∧
      (untilDriver (fun i => decide (i = 2)) 5 9 4 (.val false)
        { initState with timeout := none }).1.endDate = none ∧
      (untilDriver (fun i => decide (i = 2)) 5 9 4 (.val false)
        { initState with timeout := none }).1.runTime = none ∧
      (untilDriver (fun i => decide (i = 2)) 5 9 4 (.val false)
        { initState with timeout := none }).1.status = .running) :=
  action_failure_aborts (fun i => decide (i = 2)) none 5 9 2 4 3 (.val false)
    (by decide) (by decide) (by decide)
    (fun j h1 h2 => by
      have hj : j = 1 := by omega
      subst hj; decide)
    (by decide)
    (fun j h1 h2 => by
      have hj : j = 1 := by omega
      subst hj; decide)

/-- C4: in an `infinite()` run with a configured delay, the loop applies the
delay before checking the stop flag.  Whenever `stop()` is called (at any
await point `n` of the background loop), the loop unwinds (`= true`): the
trace after the `stop()` call is exactly the stop bookkeeping followed — when
the stop lands during a sleep (`n` even) — by the pending delay still
elapsing (`sleepEnd`) with the action for that tick skipped, or — when it
lands during an action await (`n` odd) — by that action's completion, one
last full delay, and nothing else.  In particular no action invocation
(`actStart`) ever occurs after the `stop()` call. -/
theorem infinite_stop_skips_last_tick (fails : Nat → Bool) (t : Int) (n fuel t0 tStop : Nat)
    (hfails : ∀ j, fails j = false) (ht : t ≠ 0) (hfuel : n + 2 ≤ fuel) :
    (infiniteDriver fails t0 tStop (some n) fuel
      { initState with timeout := some t }).2.2 = true ∧
    ∃ pre, (infiniteDriver fails t0 tStop (some n) fuel
      { initState with timeout := some t }).2.1 =
        pre ++ Event.stopCall :: Event.setStatus .complete ::
          (if n % 2 = 0 then [Event.sleepEnd]
           else [Event.actEnd, Event.sleepStart t, Event.sleepEnd]) := by
  obtain ⟨pre0, hloop⟩ := infLoop_stop fails hfails t ht n fuel 0 0 rfl (by omega) (by omega)
  constructor
  · simp [infiniteDriver, initState, hloop]
  · refine ⟨[Event.driverStart, Event.setStatus .running] ++ pre0, ?_⟩
    simp [infiniteDriver, initState, hloop]

theorem infinite_stop_skips_last_tick_witness :
    ((infiniteDriver (fun _ => false) 0 50 (some 0) 5
      { initState with timeout := some 10 }).2.2 = true ∧
    ∃ pre, (infiniteDriver (fun _ => false) 0 50 (some 0) 5
      { initState with timeout := some 10 }).2.1 =
        pre ++ Event.stopCall :: Event.setStatus .complete ::
          (if 0 % 2 = 0 then [Event.sleepEnd]
           else [Event.actEnd, Event.sleepStart 10, Event.sleepEnd])) :=
  infinite_stop_skips_last_tick (fun _ => false) 10 0 5 0 50 (fun _ => rfl)
    (by decide) (by decide)

/-- C9 counterexample: the claim says that after `stop()` during an
`infinite()` run the loop always performs one more counter increment, so the
unwound counter reads `1`.  When `stop()` lands during the sleep of an
already-incremented tick (await 0 here), the loop sees the flag right after
the sleep and unwinds without incrementing again, leaving the counter at `0`
(the value `stop()`'s bookkeeping wrote), not `1`. -/
theorem infinite_stop_counter_not_one :
    (infiniteDriver (fun _ => false) 0 50 (some 0) 5
      { initState with timeout := some 10 }).2.2 = true ∧
    (infiniteDriver (fun _ => false) 0 50 (some 0) 5
      { initState with timeout := some 10 }).1.stopped = true ∧
    (infiniteDriver (fun _ => false) 0 50 (some 0) 5
      { initState with timeout := some 10 }).1.status = .complete ∧
    ¬ (infiniteDriver (fun _ => false) 0 50 (some 0) 5
      { initState with timeout := some 10 }).1.repeated = 1 := by
  decide

/-- C9 (amended): when `stop()` lands during an action await (an odd await
index `n`), the background loop resumes, performs one more increment of the
private call counter before its delay and stop-flag check, skips the action
for that tick, and unwinds; the counter then reads `1`, not the `0` that
`stop()`'s completion bookkeeping wrote.  (When `stop()` lands during a
delay wait — an even await index — no further increment happens and the
counter stays `0`.) -/
theorem infinite_stop_counter_after_action (fails : Nat → Bool) (t : Int)
    (n fuel t0 tStop : Nat) (hfails : ∀ j, fails j = false) (ht : t ≠ 0)
    (hodd : n % 2 = 1) (hfuel : n + 2 ≤ fuel) :
    (infiniteDriver fails t0 tStop (some n) fuel
      { initState with timeout := some t }).1.repeated = 1 ∧
    (infiniteDriver fails t0 tStop (some n) fuel
      { initState with timeout := some t }).2.2 = true := by
  obtain ⟨pre0, hloop⟩ := infLoop_stop fails hfails t ht n fuel 0 0 rfl (by omega) (by omega)
  have hne : ¬ n % 2 = 0 := by omega
  rw [if_neg hne] at hloop
  constructor
  · simp [infiniteDriver, initState, hloop]
  · simp [infiniteDriver, initState, hloop]

theorem infinite_stop_counter_after_action_witness :
    (infiniteDriver (fun _ => false) 0 50 (some 1) 5
      { initState with timeout := some 10 }).1.repeated = 1 ∧
    (infiniteDriver (fun _ => false) 0 50 (some 1) 5
      { initState with timeout := some 10 }).2.2 = true :=
  infinite_stop_counter_after_action (fun _ => false) 10 1 5 0 50 (fun _ => rfl)
    (by decide) (by decide) (by decide)

/-- C7: over every sequence of public operations started on a fresh
instance, the `status` field moves only forward along
idle → running → complete: no operation ever writes `idle` back (so neither
running → idle nor complete → idle can occur), and every write of `running`
— in particular one re-entering from `complete` — is the write a freshly
started driver call performs at its entry. -/
theorem status_transition_discipline (ops : List PubOp) :
    goodStatusTrace false (runOps initState ops).2 = true :=
  runOps_good ops initState

/-- C10: calling `stop()` on a freshly constructed `Repeater` (no driver ever
started, `status` still `'idle'`, `startDate` never assigned) first performs
the completion writes — `status` jumps straight from `'idle'` to
`'complete'` and `endDate` is set — and then throws while computing
`runTime`, because `_complete` reads `this.startDate.getTime()` on an
undefined `startDate`; `runTime` is left unset. -/
theorem stop_before_start_throws (t1 : Nat) :
    initState.status = .idle ∧
    (stop t1 initState).2.2 = true ∧
    (stop t1 initState).1.status = .complete ∧
    (stop t1 initState).1.endDate = some t1 ∧
    (stop t1 initState).1.runTime = none := by
  refine ⟨rfl, ?_, ?_, ?_, ?_⟩ <;> simp [stop, completeRun, initState]

/-- C6: `every('2s')` leaves the instance in the same state as `every(2000)`,
`every('500ms')` the same as `every(500)`, and `every('1m')` the same as
`every(60000)`; in general, for any string made of a (nonempty) run of
decimal digits followed by the suffix `ms`, `s`, or `m`, `every` stores the
digits' value converted to milliseconds (`ms` as is, `s` × 1000,
`m` × 60000). -/
theorem every_duration_units (st : RState) :
    (every (.str ['2', 's']) st = every (.num 2000) st ∧
     every (.str ['5', '0', '0', 'm', 's']) st = every (.num 500) st ∧
     every (.str ['1', 'm']) st = every (.num 60000) st) ∧
    (∀ ds : List Char, ds ≠ [] → (∀ c ∈ ds, c.isDigit = true) →
      every (.str (ds ++ ['m', 's'])) st = every (.num ((digitsToNat ds : Int))) st ∧
      every (.str (ds ++ ['s'])) st = every (.num ((digitsToNat ds : Int) * 1000)) st ∧
      every (.str (ds ++ ['m'])) st = every (.num ((digitsToNat ds : Int) * 60000)) st) := by
  constructor
  · exact ⟨rfl, rfl, rfl⟩
  · intro ds hne hds
    have hs : ('s' : Char).isDigit = false := by decide
    have hm : ('m' : Char).isDigit = false := by decide
    refine ⟨?_, ?_, ?_⟩
    · rw [show ds ++ ['m', 's'] = ds ++ 'm' :: ['s'] from rfl] at *
      simp only [every, endsWith_append_self ds ['m', 's'],
        parseIntJS_digits ds hne hds 'm' hm ['s'], if_true]
    · simp only [every, not_endsWith_s_ms ds hds, Bool.false_eq_true, if_false,
        endsWith_append_self ds ['s'], if_true,
        parseIntJS_digits ds hne hds 's' hs []]
      have h1000 : Option.map (fun x => x * 1000) (some ((digitsToNat ds : Int))) =
          some ((digitsToNat ds : Int) * 1000) := by simp
      rw [h1000]
    · simp only [every, not_endsWith_m_ms ds, not_endsWith_m_s ds, Bool.false_eq_true,
        if_false, endsWith_append_self ds ['m'], if_true,
        parseIntJS_digits ds hne hds 'm' hm []]
      have h60 : Option.map (fun x => x * 1000 * 60) (some ((digitsToNat ds : Int))) =
          some ((digitsToNat ds : Int) * 60000) := by
        simp
        ring
      rw [h60]

theorem every_duration_units_witness :
    every (.str ['7', 's']) initState = every (.num 7000) initState := by
  have h := (every_duration_units initState).2 ['7'] (by decide) (by decide)
  exact h.2.1

end StaterRepeat
